import Mathlib

/-!
Shallow embedding of `src/main.rs` of the stitcher program.

Modelling conventions:
* An OS string (a `PathBuf` / `OsStr`) is a list of bytes, `Path := List Nat`.
  UTF-8 decodability (`OsStr::to_str`) is modelled at the ASCII level: a byte
  list decodes to text iff every byte is below 128; a byte `≥ 128` (such as
  `0xFF`, which is invalid UTF-8 in every position) models a non-decodable
  unit.  All concrete names appearing in the program are ASCII, so this
  preserves the program's behaviour on them exactly.
* Fallible system calls (`fs::write`, `Command::status`, `fs::remove_file`,
  `fs::read_dir`, per-entry `DirEntry` results, probe runs of candidate
  binaries) are modelled by explicit oracle values passed in, mirroring the
  `Result` values the code inspects.
* The externally visible actions of `stitch_files` (writing the manifest,
  running the external binary, printing, removing the manifest) are recorded
  in an effect trace, in program order.  `Effect.write` models `fs::write`,
  which creates the file or truncates (overwrites) an existing one.
* `panic!` / `.expect` / `.exit_ok()` aborts are modelled by the
  `Outcome.panic` constructor carrying a structured reason; the
  `exitNotOk` reason carries the captured exit code, mirroring
  `panic!("...: {:?}", &output)`.
-/

namespace Stitcher

/-- A filesystem path / OS string, as its list of bytes. -/
abbrev Path := List Nat

/-- Bytes of an ASCII string literal (all characters of the literals that
occur in the program are below 128). -/
def ascii (s : String) : Path := s.data.map Char.toNat

/-- `OsStr::to_str`: decode a byte list to text; succeeds iff every byte is
below 128 (see the modelling conventions above). -/
def toStr? (p : Path) : Option String :=
  if p.all (fun b => b < 128) then some (String.mk (p.map Char.ofNat)) else none

/-- Split a list at the LAST occurrence of the byte `b`:
`some (pre, post)` with `l = pre ++ b :: post` and `b ∉ post`;
`none` when `b` does not occur. -/
def splitAtLast (b : Nat) : List Nat → Option (List Nat × List Nat)
  | [] => none
  | a :: rest =>
    match splitAtLast b rest with
    | some (pre, post) => some (a :: pre, post)
    | none => if a = b then some ([], rest) else none

/-- The byte of the character `.` -/
def dotByte : Nat := 46

/-- The byte of the character `/` -/
def slashByte : Nat := 47

/-- Rust std's `rsplit_file_at_dot`, restricted to the extension component:
split the file name at its last `.`; the extension exists iff a `.` occurs
and the part before the last `.` is non-empty (so `.wav` has no extension);
the file name `..` is special-cased to have none. -/
def rsplitFileAtDot (file : List Nat) : Option (List Nat) :=
  if file = [dotByte, dotByte] then none
  else
    match splitAtLast dotByte file with
    | none => none
    | some (pre, post) => if pre = [] then none else some post

/-- `Path::file_name`: the component after the last `/`; `none` when that
component is empty, `.` or `..`.  (Rust additionally skips a trailing `/`
and trailing `.` components; paths produced by `read_dir` — a directory
joined with a non-empty, slash-free entry name — never exercise those
cases, and they are not modelled.) -/
def fileName? (p : Path) : Option (List Nat) :=
  let n := match splitAtLast slashByte p with
    | none => p
    | some (_, post) => post
  if n = [] ∨ n = [dotByte] ∨ n = [dotByte, dotByte] then none else some n

/-- `Path::extension`: extension of the file name as defined by
`rsplitFileAtDot`. -/
def extension? (p : Path) : Option (List Nat) :=
  (fileName? p).bind rsplitFileAtDot

/-- `filter_supported_extensions` (src/main.rs:77-83):
`match path.extension()?.to_str()? { "mp3" | "wav" => Some(path), _ => None }`. -/
def filter_supported_extensions (path : Path) : Option Path :=
  match extension? path with
  | none => none
  | some ext =>
    match toStr? ext with
    | none => none
    | some s => if s = "mp3" ∨ s = "wav" then some path else none

/-- The file kind of a directory entry, as the filesystem reports it. -/
inductive EntryKind where
  | file
  | dir
  | symlink
  | other
deriving DecidableEq, Repr

/-- A directory entry as yielded by `fs::read_dir`: its full path
(`DirEntry::path`, the input directory joined with the entry name), its
file kind, and — to make content-independence statable — the bytes of the
file's data at discovery time (never inspected by the program). -/
structure DirEntry where
  path : Path
  kind : EntryKind
  contents : List Nat
deriving DecidableEq, Repr

/-- `look_for_files` (src/main.rs:65-75).  The argument models the
`fs::read_dir` result: `Except.error` a failed `read_dir`, and each item
an `io::Result<DirEntry>` (`filter_map(|x| x.ok())`). -/
def look_for_files (readDirResult : Except Unit (List (Except Unit DirEntry))) :
    List Path :=
  match readDirResult with
  | .error _ => []
  | .ok items =>
    ((items.filterMap Except.toOption).map DirEntry.path).filterMap
      filter_supported_extensions

/-- The reason of an abrupt termination (`panic!` / `.expect`), with the
payload the panic message captures. -/
inductive PanicReason where
  /-- `panic!("failed to convert the file paths into a single string")` -/
  | pathEncoding
  /-- `panic!("failed to write lines to the temp file!: {:?}", e)` -/
  | writeFailed
  /-- `.expect("did not concatenate the files: ffmpeg command failed")` -/
  | spawnFailed
  /-- `panic!("did not concatenate the files: exit not ok: {:?}", &output)`,
  carrying the captured exit code. -/
  | exitNotOk (code : Nat)
  /-- `panic!("failed to clean up the temporary file! {:?}", e)` -/
  | cleanupFailed
deriving DecidableEq, Repr

/-- Normal completion with a value, or abrupt termination by panic. -/
inductive Outcome (α : Type) where
  | panic (reason : PanicReason)
  | ok (value : α)
deriving DecidableEq, Repr

/-- An externally visible action of the program, in program order. -/
inductive Effect where
  /-- `fs::write path contents`: create, or truncate an existing file. -/
  | write (path : String) (contents : String)
  /-- spawn the binary with the argument list and wait. -/
  | run (bin : Path) (args : List Path)
  /-- `println!` -/
  | print (line : String)
  /-- `fs::remove_file path` -/
  | remove (path : String)
deriving DecidableEq, Repr

/-- Does the effect delete a file? -/
def Effect.isRemove : Effect → Bool
  | .remove _ => true
  | _ => false

/-- Does the effect run the external binary? -/
def Effect.isRun : Effect → Bool
  | .run _ _ => true
  | _ => false

/-- Oracle for the fallible system calls `stitch_files` performs:
whether `fs::write` succeeds, the `Command::status()` result (`none` a
spawn failure, `some code` the captured exit code; `status.success()` and
`exit_ok()` hold iff the code is 0), and whether `fs::remove_file`
succeeds. -/
structure StitchWorld where
  writeResult : Bool
  statusResult : Option Nat
  removeResult : Bool
deriving DecidableEq, Repr

/-- The fixed manifest path `./_stitcher_tmp_.txt` (src/main.rs:93). -/
def inputs_file_path : String := "./_stitcher_tmp_.txt"

/-- The manifest-building loop of `stitch_files` (src/main.rs:97-110):
for each file append `"file "`, the decoded path, and `"\n"`; panic on the
first path that does not decode. -/
def buildManifest : List Path → Except PanicReason String
  | [] => .ok ""
  | f :: rest =>
    match toStr? f with
    | some s => (buildManifest rest).map (fun tail => "file " ++ s ++ "\n" ++ tail)
    | none => .error .pathEncoding

/-- The ffmpeg argument list of `stitch_files` (src/main.rs:118-129):
`-y` (overwrite output without prompting), `-vn` (no video stream),
`-f concat` (concatenation demuxer), `-safe 0` (relaxed path safety),
`-i <manifest>`, `-c copy` (stream copy), and the output path. -/
def stitchArgs (outPath : Path) : List Path :=
  [ascii "-y", ascii "-vn", ascii "-f", ascii "concat", ascii "-safe", ascii "0",
   ascii "-i", ascii inputs_file_path, ascii "-c", ascii "copy", outPath]

/-- `stitch_files` (src/main.rs:85-149), returning the outcome together
with the trace of effects performed before termination. -/
def stitch_files (ffmpeg_bin_path outPath : Path) (files : List Path)
    (w : StitchWorld) : Outcome Path × List Effect :=
  match buildManifest files with
  | .error r => (.panic r, [])
  | .ok contents =>
    if w.writeResult = false then
      (.panic .writeFailed, [.write inputs_file_path contents])
    else
      match w.statusResult with
      | none =>
        (.panic .spawnFailed,
         [.write inputs_file_path contents,
          .run ffmpeg_bin_path (stitchArgs outPath)])
      | some code =>
        if code = 0 then
          if w.removeResult = false then
            (.panic .cleanupFailed,
             [.write inputs_file_path contents,
              .run ffmpeg_bin_path (stitchArgs outPath),
              .print "successfully concatenated the files",
              .remove inputs_file_path])
          else
            (.ok outPath,
             [.write inputs_file_path contents,
              .run ffmpeg_bin_path (stitchArgs outPath),
              .print "successfully concatenated the files",
              .remove inputs_file_path])
        else
          (.panic (.exitNotOk code),
           [.write inputs_file_path contents,
            .run ffmpeg_bin_path (stitchArgs outPath)])

/-- `Debug` rendering of one `PathBuf` (quoted), as it appears inside the
`{:?}` rendering of the candidate list.  (Byte-level escape sequences of
`Debug` are not modelled; each byte renders as one character.) -/
def pathRepr (p : Path) : String :=
  "\"" ++ String.mk (p.map Char.ofNat) ++ "\""

/-- The comma-separated body of the `{:?}` rendering of the candidate
list. -/
def checkedPathsRepr : List Path → String
  | [] => ""
  | [p] => pathRepr p
  | p :: rest => pathRepr p ++ ", " ++ checkedPathsRepr rest

/-- The error message of `find_valid_ffmpeg_binary` (src/main.rs:59-62),
with the `{:?}` rendering of the full candidate list. -/
def ffmpegErrMsg (paths : List Path) : String :=
  "failed to find a valid ffmpeg binary. checked paths: [" ++
    checkedPathsRepr paths ++ "]"

/-- `output.is_ok_and(|x| x.status.success())`: the probe result is an
`Ok` output whose exit status is 0. -/
def probeSuccess (r : Option Nat) : Bool :=
  match r with
  | some 0 => true
  | _ => false

/-- The probe loop of `find_valid_ffmpeg_binary`: first path whose probe
(running it with the single argument `-h`) starts and exits 0.  `probe`
is the oracle for `Command::new(path).arg("-h").output()`: `none` a spawn
failure, `some code` the exit code. -/
def findFirstValid (probe : Path → List Path → Option Nat) :
    List Path → Option Path
  | [] => none
  | p :: rest =>
    if probeSuccess (probe p [ascii "-h"]) then some p
    else findFirstValid probe rest

/-- `find_valid_ffmpeg_binary` (src/main.rs:47-63). -/
def find_valid_ffmpeg_binary (probe : Path → List Path → Option Nat)
    (paths_to_check : List Path) : Except String Path :=
  match findFirstValid probe paths_to_check with
  | some p => .ok p
  | none => .error (ffmpegErrMsg paths_to_check)

/-- The hard-coded candidate list of `main` (src/main.rs:22-25). -/
def candidate_paths : List Path :=
  [ascii "/bin/ffmpeg", ascii "./vendor/ffmpeg/ffmpeg"]

/-- The `output_file_name` computation of `main` (src/main.rs:27-33): the
`--out` value when given, else `STITCH_OUTPUT_<timestamp>.wav` with the
formatted local time `now`. -/
def output_file_name (out : Option Path) (now : String) : Path :=
  match out with
  | some o => o
  | none => ascii ("STITCH_OUTPUT_" ++ now ++ ".wav")

/-- `main` (src/main.rs:19-43).  `probe` is the probe oracle of the binary
locator, `readDirResult` the `fs::read_dir` oracle, `out` the parsed
`--out` option, `now` the formatted local timestamp used in the default
output name, and `w` the oracle for `stitch_files`'s system calls.  The
effect trace is that of `stitch_files` (the locator's probe spawns are
consumed through `probe` and leave no trace entries). -/
def mainRun (probe : Path → List Path → Option Nat)
    (readDirResult : Except Unit (List (Except Unit DirEntry)))
    (out : Option Path) (now : String) (w : StitchWorld) :
    Outcome (Except String Unit) × List Effect :=
  match find_valid_ffmpeg_binary probe candidate_paths with
  | .error e => (.ok (.error e), [])
  | .ok ffmpeg_bin_path =>
    if (look_for_files readDirResult).length = 0 then
      (.ok (.error "found no files!"), [])
    else
      match stitch_files ffmpeg_bin_path (output_file_name out now)
          (look_for_files readDirResult) w with
      | (.panic r, tr) => (.panic r, tr)
      | (.ok _, tr) => (.ok (.ok ()), tr)

/-- The keep-decision of `filter_supported_extensions`, expressed on the
decoded extension: the platform extension of the path decodes to exactly
the text `mp3` or `wav`. -/
def extMatchesB (p : Path) : Bool :=
  ((extension? p).bind toStr? == some "mp3") ||
    ((extension? p).bind toStr? == some "wav")

/-- The manifest text as the spec describes it: one line per file, in
order, each the token `file `, the path rendered as text, and a
newline. -/
def specManifest (files : List Path) : String :=
  (files.map (fun f => "file " ++ (toStr? f).getD "" ++ "\n")).foldr
    (fun a b => a ++ b) ""

/-- The claim's notion of extension (claim C6's words, for comparison
with the code's `extension?`): the substring of the file name after the
LAST `.`, whenever a `.` occurs at all. -/
def claimedExtension (p : Path) : Option (List Nat) :=
  (fileName? p).bind (fun n => (splitAtLast dotByte n).map Prod.snd)

/-- The claim's keep-decision, following its words: the entry is kept iff
its `claimedExtension` equals `mp3` or `wav` byte-for-byte; entries
without an extension, or whose PATH cannot be decoded to text, are
dropped. -/
def claimedKeep (p : Path) : Bool :=
  (p.all (fun b => b < 128)) &&
    match claimedExtension p with
    | some e => e == ascii "mp3" || e == ascii "wav"
    | none => false

end Stitcher

namespace Stitcher

/-- `probeSuccess` holds exactly on a captured exit code 0. -/
theorem probeSuccess_eq_true_iff (r : Option Nat) :
    probeSuccess r = true ↔ r = some 0 := by
  cases r with
  | none => simp [probeSuccess]
  | some n => cases n <;> simp [probeSuccess]

/-- `probeSuccess` fails exactly off a captured exit code 0. -/
theorem probeSuccess_eq_false_iff (r : Option Nat) :
    probeSuccess r = false ↔ r ≠ some 0 := by
  rw [← Bool.not_eq_true, probeSuccess_eq_true_iff]

/-- `splitAtLast` misses exactly when the byte does not occur. -/
theorem splitAtLast_eq_none_iff {b : Nat} {l : List Nat} :
    splitAtLast b l = none ↔ b ∉ l := by
  induction l with
  | nil => simp [splitAtLast]
  | cons a rest ih =>
    simp only [splitAtLast]
    cases h : splitAtLast b rest with
    | some pr =>
      have hb : b ∈ rest := by
        by_contra hc
        rw [← ih] at hc
        rw [h] at hc
        exact Option.noConfusion hc
      simp [hb]
    | none =>
      have hb : b ∉ rest := ih.mp h
      by_cases hab : a = b
      · simp [hab]
      · have : b ≠ a := fun he => hab he.symm
        simp [hab, hb, this]

/-- `splitAtLast` splits at the LAST occurrence: the suffix holds no
further occurrence. -/
theorem splitAtLast_eq_some_iff {b : Nat} {l pre post : List Nat} :
    splitAtLast b l = some (pre, post) ↔ l = pre ++ b :: post ∧ b ∉ post := by
  induction l generalizing pre post with
  | nil => simp [splitAtLast]
  | cons a rest ih =>
    simp only [splitAtLast]
    cases h : splitAtLast b rest with
    | some pr =>
      obtain ⟨pre', post'⟩ := pr
      obtain ⟨hdec, hnot⟩ := ih.mp h
      constructor
      · intro he
        obtain ⟨h1, h2⟩ := Prod.mk.injEq .. ▸ Option.some.injEq .. ▸ he
        exact ⟨by rw [← h1, ← h2, hdec]; rfl, h2 ▸ hnot⟩
      · rintro ⟨hd, hp⟩
        cases pre with
        | nil =>
          simp only [List.nil_append, List.cons.injEq] at hd
          exact absurd (hd.2 ▸ hdec ▸ List.mem_append_right pre' (List.mem_cons_self b post')) hp
        | cons a0 pre0 =>
          simp only [List.cons_append, List.cons.injEq] at hd
          have := ih.mpr ⟨hd.2, hp⟩
          rw [h] at this
          obtain ⟨h1, h2⟩ := Prod.mk.injEq .. ▸ Option.some.injEq .. ▸ this
          rw [hd.1, h1, h2]
    | none =>
      have hb : b ∉ rest := splitAtLast_eq_none_iff.mp h
      by_cases hab : a = b
      · subst hab
        constructor
        · intro he
          rw [if_pos rfl] at he
          obtain ⟨h1, h2⟩ := Prod.mk.injEq .. ▸ Option.some.injEq .. ▸ he
          exact ⟨by rw [← h1, ← h2]; rfl, h2 ▸ hb⟩
        · rintro ⟨hd, hp⟩
          rw [if_pos rfl]
          cases pre with
          | nil =>
            simp only [List.nil_append, List.cons.injEq] at hd
            rw [hd.2]
          | cons a0 pre0 =>
            simp only [List.cons_append, List.cons.injEq] at hd
            exact absurd (hd.2 ▸ List.mem_append_right pre0 (List.mem_cons_self a post)) hb
      · rw [if_neg hab]
        constructor
        · intro he
          exact Option.noConfusion he
        · rintro ⟨hd, hp⟩
          cases pre with
          | nil =>
            simp only [List.nil_append, List.cons.injEq] at hd
            exact absurd hd.1 hab
          | cons a0 pre0 =>
            simp only [List.cons_append, List.cons.injEq] at hd
            exact absurd (hd.2 ▸ List.mem_append_right pre0 (List.mem_cons_self b post)) hb

/-- Bytes below 128 round-trip through `Char`. -/
theorem toNat_ofNat_of_lt : ∀ b < 128, (Char.ofNat b).toNat = b := by decide

/-- A byte list that decodes to `s` is exactly the byte list of `s`. -/
theorem eq_ascii_of_toStr? {e : Path} {s : String} (h : toStr? e = some s) :
    e = ascii s := by
  unfold toStr? at h
  split at h
  case isTrue hall =>
    obtain hs := Option.some.injEq .. ▸ h
    unfold ascii
    rw [← hs]
    show e = (e.map Char.ofNat).map Char.toNat
    rw [List.map_map]
    have : ∀ a ∈ e, (Char.toNat ∘ Char.ofNat) a = id a := by
      intro a ha
      have := List.all_eq_true.mp hall a ha
      exact toNat_ofNat_of_lt a (by simpa using this)
    rw [List.map_congr_left this, List.map_id]
  case isFalse => exact Option.noConfusion h

/-- When every path decodes, the manifest loop builds exactly the
spec-shaped text: the concatenation, in order, of one `file <path>\n`
line per file. -/
theorem buildManifest_eq_of_decodable {files : List Path}
    (h : ∀ f ∈ files, (toStr? f).isSome) :
    buildManifest files = .ok (specManifest files) := by
  induction files with
  | nil => rfl
  | cons f rest ih =>
    obtain ⟨s, hs⟩ := Option.isSome_iff_exists.mp (h f (List.mem_cons_self f rest))
    have hrest := ih (fun g hg => h g (List.mem_cons_of_mem f hg))
    simp [buildManifest, hs, hrest, specManifest, Except.map]

/-- One undecodable path anywhere in the list aborts the manifest loop
with the path-encoding panic. -/
theorem buildManifest_eq_error {files : List Path}
    (h : ∃ f ∈ files, toStr? f = none) :
    buildManifest files = .error .pathEncoding := by
  induction files with
  | nil => obtain ⟨f, hf, _⟩ := h; cases hf
  | cons f rest ih =>
    obtain ⟨g, hg, hnone⟩ := h
    rcases List.mem_cons.mp hg with hgf | hgr
    · subst hgf; simp [buildManifest, hnone]
    · cases hf : toStr? f with
      | none => simp [buildManifest, hf]
      | some s => simp [buildManifest, hf, ih ⟨g, hgr, hnone⟩, Except.map]

/-- The per-entry filter, as a guard on the decoded-extension test. -/
theorem filter_supported_extensions_eq_ite (p : Path) :
    filter_supported_extensions p = if extMatchesB p then some p else none := by
  unfold filter_supported_extensions extMatchesB
  cases he : extension? p with
  | none => simp [he]
  | some e =>
    cases hs : toStr? e with
    | none => simp [he, hs]
    | some s =>
      by_cases h3 : s = "mp3"
      · simp [he, hs, h3]
      · by_cases h4 : s = "wav" <;> simp [he, hs, h3, h4]

/-- Filtering a path list through the per-entry filter keeps exactly the
matching paths, in order. -/
theorem filterMap_filter_supported_extensions (ps : List Path) :
    ps.filterMap filter_supported_extensions = ps.filter extMatchesB := by
  induction ps with
  | nil => rfl
  | cons a l ih =>
    rw [List.filterMap_cons, List.filter_cons, filter_supported_extensions_eq_ite]
    by_cases h : extMatchesB a <;> simp [h, ih]

/-- A listing of plain entries passes `look_for_files` as the
extension-filtered path list. -/
theorem look_for_files_ok (items : List DirEntry) :
    look_for_files (.ok (items.map Except.ok)) =
      (items.map DirEntry.path).filter extMatchesB := by
  have h1 : (items.map (Except.ok : DirEntry → Except Unit DirEntry)).filterMap
      Except.toOption = items := by
    induction items with
    | nil => rfl
    | cons e l ih => simp [ih, Except.toOption]
  show (((items.map Except.ok).filterMap Except.toOption).map
      DirEntry.path).filterMap filter_supported_extensions =
    (items.map DirEntry.path).filter extMatchesB
  rw [h1, filterMap_filter_supported_extensions]

/-- The probe loop finds nothing iff every candidate's probe fails. -/
theorem findFirstValid_eq_none_iff {probe : Path → List Path → Option Nat}
    {paths : List Path} :
    findFirstValid probe paths = none ↔
      ∀ q ∈ paths, probeSuccess (probe q [ascii "-h"]) = false := by
  induction paths with
  | nil => simp [findFirstValid]
  | cons p rest ih =>
    simp only [findFirstValid]
    by_cases h : probeSuccess (probe p [ascii "-h"]) = true
    · simp [h]
    · have hf : probeSuccess (probe p [ascii "-h"]) = false :=
        Bool.not_eq_true _ ▸ h
      simp [hf, ih]

/-- The probe loop returns `p` iff `p`'s probe succeeds and every earlier
candidate's probe fails. -/
theorem findFirstValid_eq_some_iff {probe : Path → List Path → Option Nat}
    {paths : List Path} {p : Path} :
    findFirstValid probe paths = some p ↔
      ∃ pre post, paths = pre ++ p :: post ∧
        probeSuccess (probe p [ascii "-h"]) = true ∧
        ∀ q ∈ pre, probeSuccess (probe q [ascii "-h"]) = false := by
  induction paths with
  | nil => simp [findFirstValid]
  | cons a rest ih =>
    simp only [findFirstValid]
    by_cases h : probeSuccess (probe a [ascii "-h"]) = true
    · rw [if_pos h]
      constructor
      · intro he
        obtain ha := Option.some.injEq .. ▸ he
        exact ⟨[], rest, by rw [ha]; rfl, ha ▸ h, by intro q hq; cases hq⟩
      · rintro ⟨pre, post, hdec, hsucc, hfail⟩
        cases pre with
        | nil =>
          simp only [List.nil_append, List.cons.injEq] at hdec
          rw [hdec.1]
        | cons a0 pre0 =>
          simp only [List.cons_append, List.cons.injEq] at hdec
          have := hfail a0 (List.mem_cons_self a0 pre0)
          rw [← hdec.1] at this
          rw [this] at h
          exact Bool.noConfusion h
    · have hf : probeSuccess (probe a [ascii "-h"]) = false :=
        Bool.not_eq_true _ ▸ h
      rw [if_neg (by simp [hf])]
      rw [ih]
      constructor
      · rintro ⟨pre, post, hdec, hsucc, hfail⟩
        refine ⟨a :: pre, post, by rw [hdec]; rfl, hsucc, ?_⟩
        intro q hq
        rcases List.mem_cons.mp hq with hqa | hqp
        · rw [hqa]; exact hf
        · exact hfail q hqp
      · rintro ⟨pre, post, hdec, hsucc, hfail⟩
        cases pre with
        | nil =>
          simp only [List.nil_append, List.cons.injEq] at hdec
          rw [hdec.1] at h
          exact absurd hsucc h
        | cons a0 pre0 =>
          simp only [List.cons_append, List.cons.injEq] at hdec
          exact ⟨pre0, post, hdec.2, hsucc,
            fun q hq => hfail q (List.mem_cons_of_mem a0 hq)⟩

/-- Each candidate's quoted rendering occurs inside the rendering of the
candidate list. -/
theorem pathRepr_infix_checkedPathsRepr {q : Path} {paths : List Path}
    (hq : q ∈ paths) :
    (pathRepr q).data <:+: (checkedPathsRepr paths).data := by
  induction paths with
  | nil => cases hq
  | cons p rest ih =>
    cases rest with
    | nil =>
      obtain hqe := List.mem_singleton.mp hq
      rw [hqe]
      exact List.infix_refl _
    | cons r rest0 =>
      rcases List.mem_cons.mp hq with hqp | hqr
      · subst hqp
        show (pathRepr q).data <:+:
          (pathRepr q ++ ", " ++ checkedPathsRepr (r :: rest0)).data
        rw [String.data_append, String.data_append, List.append_assoc]
        exact (List.prefix_append _ _).isInfix
      · have hmid := ih hqr
        show (pathRepr q).data <:+:
          (pathRepr p ++ ", " ++ checkedPathsRepr (r :: rest0)).data
        rw [String.data_append]
        exact hmid.trans (List.suffix_append _ _).isInfix

/-- Each candidate's quoted rendering occurs inside the locator's error
message. -/
theorem pathRepr_infix_ffmpegErrMsg {q : Path} {paths : List Path}
    (hq : q ∈ paths) :
    (pathRepr q).data <:+: (ffmpegErrMsg paths).data := by
  unfold ffmpegErrMsg
  rw [String.data_append, String.data_append]
  exact (pathRepr_infix_checkedPathsRepr hq).trans (List.infix_append _ _ _)

/-- C2: the Binary Locator returns the first path in list order whose
probe (running the candidate with the single argument `-h`) starts and
exits with status 0; if no candidate succeeds it returns an error, and
the error message holds the rendering of every path in the candidate
list. -/
theorem binary_locator_first_success_or_full_error
    (probe : Path → List Path → Option Nat) (paths : List Path) :
    (∀ p, find_valid_ffmpeg_binary probe paths = .ok p ↔
      ∃ pre post, paths = pre ++ p :: post ∧ probe p [ascii "-h"] = some 0 ∧
        ∀ q ∈ pre, probe q [ascii "-h"] ≠ some 0)
    ∧ (find_valid_ffmpeg_binary probe paths = .error (ffmpegErrMsg paths) ↔
        ∀ q ∈ paths, probe q [ascii "-h"] ≠ some 0)
    ∧ (∀ m, find_valid_ffmpeg_binary probe paths = .error m →
        ∀ q ∈ paths, (pathRepr q).data <:+: m.data) := by
  refine ⟨?_, ?_, ?_⟩
  · intro p
    constructor
    · intro h
      unfold find_valid_ffmpeg_binary at h
      cases hf : findFirstValid probe paths with
      | none => rw [hf] at h; simp at h
      | some p0 =>
        rw [hf] at h
        simp only [Except.ok.injEq] at h
        subst h
        obtain ⟨pre, post, hdec, hsucc, hfail⟩ := findFirstValid_eq_some_iff.mp hf
        exact ⟨pre, post, hdec, (probeSuccess_eq_true_iff _).mp hsucc,
          fun q hq => (probeSuccess_eq_false_iff _).mp (hfail q hq)⟩
    · rintro ⟨pre, post, hdec, hsucc, hfail⟩
      have hf : findFirstValid probe paths = some p :=
        findFirstValid_eq_some_iff.mpr ⟨pre, post, hdec,
          (probeSuccess_eq_true_iff _).mpr hsucc,
          fun q hq => (probeSuccess_eq_false_iff _).mpr (hfail q hq)⟩
      unfold find_valid_ffmpeg_binary
      rw [hf]
  · constructor
    · intro h q hq
      unfold find_valid_ffmpeg_binary at h
      cases hf : findFirstValid probe paths with
      | some p0 => rw [hf] at h; simp at h
      | none =>
        exact (probeSuccess_eq_false_iff _).mp
          (findFirstValid_eq_none_iff.mp hf q hq)
    · intro h
      have hf : findFirstValid probe paths = none :=
        findFirstValid_eq_none_iff.mpr
          (fun q hq => (probeSuccess_eq_false_iff _).mpr (h q hq))
      unfold find_valid_ffmpeg_binary
      rw [hf]
  · intro m hm q hq
    unfold find_valid_ffmpeg_binary at hm
    cases hf : findFirstValid probe paths with
    | some p0 => rw [hf] at hm; simp at hm
    | none =>
      rw [hf] at hm
      simp only [Except.error.injEq] at hm
      rw [← hm]
      exact pathRepr_infix_ffmpegErrMsg hq

/-- Witness for C2: with a probe failing on the first default candidate
and succeeding on the second, the locator picks the second; and the first
candidate's rendering sits inside the all-fail error message. -/
theorem binary_locator_first_success_or_full_error_witness :
    find_valid_ffmpeg_binary
        (fun p _ => if p = ascii "/bin/ffmpeg" then some 1 else some 0)
        candidate_paths = .ok (ascii "./vendor/ffmpeg/ffmpeg") ∧
      (pathRepr (ascii "/bin/ffmpeg")).data <:+:
        (ffmpegErrMsg candidate_paths).data :=
  ⟨((binary_locator_first_success_or_full_error
      (fun p _ => if p = ascii "/bin/ffmpeg" then some 1 else some 0)
      candidate_paths).1 (ascii "./vendor/ffmpeg/ffmpeg")).mpr
      ⟨[ascii "/bin/ffmpeg"], [], by decide, by decide, by decide⟩,
   (binary_locator_first_success_or_full_error (fun _ _ => some 1)
      candidate_paths).2.2 (ffmpegErrMsg candidate_paths) rfl
      (ascii "/bin/ffmpeg") (by decide)⟩

/-- C3: for every directory listing, discovery returns exactly the
sub-sequence of entry paths whose (platform) extension decodes to `mp3`
or `wav`, case-sensitively, preserving order of appearance and dropping
all other entries; the decision never reads an entry's file contents. -/
theorem file_discovery_filters_by_extension_only (entries : List DirEntry) :
    look_for_files (.ok (entries.map Except.ok)) =
      (entries.map DirEntry.path).filter extMatchesB
    ∧ (look_for_files (.ok (entries.map Except.ok))).Sublist
        (entries.map DirEntry.path)
    ∧ ∀ g : DirEntry → List Nat,
        look_for_files (.ok (entries.map (fun e =>
          Except.ok (DirEntry.mk e.path e.kind (g e))))) =
          look_for_files (.ok (entries.map Except.ok)) := by
  refine ⟨look_for_files_ok entries, ?_, ?_⟩
  · rw [look_for_files_ok]
    exact List.filter_sublist _
  · intro g
    rw [look_for_files_ok entries]
    have h2 : entries.map (fun e =>
        Except.ok (ε := Unit) (DirEntry.mk e.path e.kind (g e))) =
        (entries.map (fun e => DirEntry.mk e.path e.kind (g e))).map
          Except.ok := by
      rw [List.map_map]
      rfl
    rw [h2, look_for_files_ok, List.map_map]
    have h3 : (DirEntry.path ∘ fun e => DirEntry.mk e.path e.kind (g e)) =
        DirEntry.path := by
      funext e
      rfl
    rw [h3]

/-- C7 as stated is false at this input: `look_for_files` never consults
an entry's file kind, so a DIRECTORY whose name carries a recognized
audio extension is returned, not discarded. -/
theorem directory_with_audio_extension_kept_cex :
    look_for_files
        (.ok [.ok (DirEntry.mk (ascii "./sounds/d.wav") .dir [])]) =
      [ascii "./sounds/d.wav"] := by decide

/-- C7 amended: File Discovery ignores the file kind of every entry —
replacing each entry's kind arbitrarily (directory, symlink, ...) leaves
the discovered path list unchanged, so non-regular-file entries with a
recognized extension are kept, not discarded. -/
theorem discovery_ignores_entry_kind (entries : List DirEntry)
    (g : DirEntry → EntryKind) :
    look_for_files (.ok (entries.map (fun e =>
      Except.ok (DirEntry.mk e.path (g e) e.contents)))) =
      look_for_files (.ok (entries.map Except.ok)) := by
  rw [look_for_files_ok entries]
  have h2 : entries.map (fun e =>
      Except.ok (ε := Unit) (DirEntry.mk e.path (g e) e.contents)) =
      (entries.map (fun e => DirEntry.mk e.path (g e) e.contents)).map
        Except.ok := by
    rw [List.map_map]
    rfl
  rw [h2, look_for_files_ok, List.map_map]
  have h3 : (DirEntry.path ∘ fun e => DirEntry.mk e.path (g e) e.contents) =
      DirEntry.path := by
    funext e
    rfl
  rw [h3]

/-- C6 as stated is false at these inputs: the file name `.mp3` has
`mp3` after its last dot yet the code drops it (Rust's extension is
empty there), and a NON-decodable path whose extension alone decodes
(`b<0xFF>.wav`) is kept, though the claim says such paths are dropped. -/
theorem claimed_extension_rule_cex :
    claimedKeep (ascii ".mp3") = true ∧
      filter_supported_extensions (ascii ".mp3") = none ∧
      claimedKeep (98 :: 255 :: ascii ".wav") = false ∧
      filter_supported_extensions (98 :: 255 :: ascii ".wav") =
        some (98 :: 255 :: ascii ".wav") := by decide

/-- C6 amended: an entry is kept iff its file name splits as
`stem ++ "." ++ ext` with a NON-EMPTY stem, no dot inside `ext`, and
`ext` exactly the bytes of `mp3` or `wav` (such an extension always
decodes); every other entry — no such extension, or an extension that
does not decode — is silently dropped, the output being the input path
itself or nothing. -/
theorem keep_iff_nonempty_stem_dot_ext (p : Path) :
    (filter_supported_extensions p = some p ↔
      ∃ n pre post, fileName? p = some n ∧ n = pre ++ dotByte :: post ∧
        pre ≠ [] ∧ dotByte ∉ post ∧
        (post = ascii "mp3" ∨ post = ascii "wav"))
    ∧ (filter_supported_extensions p = some p ∨
        filter_supported_extensions p = none) := by
  constructor
  · constructor
    · intro h
      rw [filter_supported_extensions_eq_ite] at h
      by_cases hb : extMatchesB p = true
      · have hd : (extension? p).bind toStr? = some "mp3" ∨
            (extension? p).bind toStr? = some "wav" := by
          unfold extMatchesB at hb
          rcases Bool.or_eq_true_iff.mp hb with h1 | h1
          · exact Or.inl (beq_iff_eq.mp h1)
          · exact Or.inr (beq_iff_eq.mp h1)
        have hext : ∃ e, extension? p = some e ∧
            (e = ascii "mp3" ∨ e = ascii "wav") := by
          rcases hd with h1 | h1
          · obtain ⟨e, he, hts⟩ := Option.bind_eq_some.mp h1
            exact ⟨e, he, Or.inl (eq_ascii_of_toStr? hts)⟩
          · obtain ⟨e, he, hts⟩ := Option.bind_eq_some.mp h1
            exact ⟨e, he, Or.inr (eq_ascii_of_toStr? hts)⟩
        obtain ⟨e, he, hcases⟩ := hext
        unfold extension? at he
        obtain ⟨n, hn, hr⟩ := Option.bind_eq_some.mp he
        unfold rsplitFileAtDot at hr
        split at hr
        · exact Option.noConfusion hr
        · cases hsp : splitAtLast dotByte n with
          | none => rw [hsp] at hr; exact Option.noConfusion hr
          | some pr =>
            obtain ⟨pre, post⟩ := pr
            rw [hsp] at hr
            change (if pre = [] then none else some post) = some e at hr
            by_cases hpre : pre = []
            · rw [if_pos hpre] at hr
              exact Option.noConfusion hr
            · rw [if_neg hpre] at hr
              obtain hpost := Option.some.injEq .. ▸ hr
              obtain ⟨hdec, hnot⟩ := splitAtLast_eq_some_iff.mp hsp
              exact ⟨n, pre, post, hn, hdec, hpre, hnot, hpost ▸ hcases⟩
      · rw [Bool.not_eq_true] at hb
        rw [hb] at h
        simp at h
    · rintro ⟨n, pre, post, hn, hdec, hpre, hnot, hpost⟩
      have hsp : splitAtLast dotByte n = some (pre, post) :=
        splitAtLast_eq_some_iff.mpr ⟨hdec, hnot⟩
      have hne : n ≠ [dotByte, dotByte] := by
        intro hdd
        rw [hdec] at hdd
        have hlen := congrArg List.length hdd
        simp only [List.length_append, List.length_cons, List.length_nil]
          at hlen
        have h3 : post.length = 3 := by
          rcases hpost with h | h <;> rw [h] <;> rfl
        omega
      have hext : extension? p = some post := by
        unfold extension?
        rw [hn]
        show rsplitFileAtDot n = some post
        unfold rsplitFileAtDot
        rw [if_neg hne, hsp]
        show (if pre = [] then none else some post) = some post
        rw [if_neg hpre]
      rw [filter_supported_extensions_eq_ite]
      have hb : extMatchesB p = true := by
        unfold extMatchesB
        rw [hext]
        rcases hpost with h | h <;> subst h <;> decide
      rw [hb]
      simp
  · rw [filter_supported_extensions_eq_ite]
    by_cases h : extMatchesB p <;> simp [h]

/-- Witness for C6's amended rule: `x.mp3` decomposes as required and is
kept. -/
theorem keep_iff_nonempty_stem_dot_ext_witness :
    filter_supported_extensions (ascii "x.mp3") = some (ascii "x.mp3") :=
  ((keep_iff_nonempty_stem_dot_ext (ascii "x.mp3")).1).mpr
    ⟨ascii "x.mp3", [120], ascii "mp3", by decide, by decide, by decide,
     by decide, Or.inl rfl⟩

/-- C1 as stated is false at this input: the external tool is invoked
(the trace holds a run effect) and exits with status 1, yet the program
panics with the captured exit information and the trace holds NO
delete-manifest effect. -/
theorem tool_failure_skips_manifest_cleanup_cex :
    ((stitch_files (ascii "ffmpeg") (ascii "o.wav") [ascii "a.wav"]
        (StitchWorld.mk true (some 1) true)).2.any Effect.isRun = true) ∧
      (StitchWorld.mk true (some 1) true).statusResult = some 1 ∧
      ((stitch_files (ascii "ffmpeg") (ascii "o.wav") [ascii "a.wav"]
          (StitchWorld.mk true (some 1) true)).1 =
        .panic (.exitNotOk 1)) ∧
      ((stitch_files (ascii "ffmpeg") (ascii "o.wav") [ascii "a.wav"]
          (StitchWorld.mk true (some 1) true)).2.any Effect.isRemove =
        false) := by decide

/-- C1 amended: when the external tool exits with a non-zero status the
program panics carrying the captured exit code and does NOT attempt to
delete the temporary manifest — no remove effect appears in the trace;
deletion is attempted only on a zero exit status. -/
theorem nonzero_exit_panics_without_cleanup
    (bin out : Path) (files : List Path) (w : StitchWorld) (c : Nat)
    (hf : ∀ f ∈ files, (toStr? f).isSome) (hw : w.writeResult = true)
    (hs : w.statusResult = some c) (hc : c ≠ 0) :
    (stitch_files bin out files w).1 = .panic (.exitNotOk c) ∧
      (stitch_files bin out files w).2.any Effect.isRemove = false := by
  have hbm := buildManifest_eq_of_decodable hf
  simp only [stitch_files, hbm, hw, hs]
  simp [hc, Effect.isRemove]

/-- Witness for C1's amended rule at a concrete failing run. -/
theorem nonzero_exit_panics_without_cleanup_witness :
    ((stitch_files (ascii "ffmpeg") (ascii "out.wav") [ascii "b.mp3"]
        (StitchWorld.mk true (some 2) true)).1 = .panic (.exitNotOk 2)) ∧
      ((stitch_files (ascii "ffmpeg") (ascii "out.wav") [ascii "b.mp3"]
          (StitchWorld.mk true (some 2) true)).2.any Effect.isRemove =
        false) :=
  nonzero_exit_panics_without_cleanup (ascii "ffmpeg") (ascii "out.wav")
    [ascii "b.mp3"] (StitchWorld.mk true (some 2) true) 2
    (by decide) rfl rfl (by decide)

/-- C4: for a (non-empty) decodable file list, the FIRST effect of the
run writes, to the fixed path `./_stitcher_tmp_.txt`, exactly the
concatenation, in list order, of one `file <path>\n` line per file. -/
theorem manifest_one_line_per_file_at_fixed_path
    (bin out : Path) (files : List Path) (w : StitchWorld)
    (_hne : files ≠ []) (hf : ∀ f ∈ files, (toStr? f).isSome) :
    (stitch_files bin out files w).2.head? =
      some (.write "./_stitcher_tmp_.txt"
        ((files.map (fun f => "file " ++ (toStr? f).getD "" ++ "\n")).foldr
          (fun a b => a ++ b) "")) := by
  have hbm := buildManifest_eq_of_decodable hf
  simp only [stitch_files, hbm]
  rcases hst : w.statusResult with _ | code
  · by_cases hwr : w.writeResult = false <;>
      simp [hwr, hst, specManifest, inputs_file_path]
  · by_cases hwr : w.writeResult = false
    · simp [hwr, specManifest, inputs_file_path]
    · by_cases hc : code = 0 <;>
        by_cases hrr : w.removeResult = false <;>
        simp [hwr, hst, hc, hrr, specManifest, inputs_file_path]

/-- Witness for C4 on a two-file list. -/
theorem manifest_one_line_per_file_at_fixed_path_witness :
    (stitch_files (ascii "ffmpeg") (ascii "out.wav")
        [ascii "./sounds/a.wav", ascii "./sounds/b.mp3"]
        (StitchWorld.mk true (some 0) true)).2.head? =
      some (.write "./_stitcher_tmp_.txt"
        "file ./sounds/a.wav\nfile ./sounds/b.mp3\n") := by
  rw [manifest_one_line_per_file_at_fixed_path (ascii "ffmpeg")
    (ascii "out.wav") [ascii "./sounds/a.wav", ascii "./sounds/b.mp3"]
    (StitchWorld.mk true (some 0) true) (by decide) (by decide)]
  decide

/-- C5: discovery maps a failed directory read to the empty list rather
than an error; and whenever the binary was located but discovery yields
no files, `main` stops with the `found no files!` error, with an EMPTY
effect trace — no manifest write and no stitching happen. -/
theorem empty_discovery_errors_before_stitching
    (probe : Path → List Path → Option Nat)
    (readDirResult : Except Unit (List (Except Unit DirEntry)))
    (out : Option Path) (now : String) (w : StitchWorld) (bin : Path)
    (hfind : find_valid_ffmpeg_binary probe candidate_paths = .ok bin)
    (hempty : look_for_files readDirResult = []) :
    look_for_files (.error ()) = [] ∧
      mainRun probe readDirResult out now w =
        (.ok (.error "found no files!"), []) := by
  refine ⟨rfl, ?_⟩
  unfold mainRun
  rw [hfind, hempty]
  rfl

/-- Witness for C5: unreadable directory, locator succeeding on the
first candidate. -/
theorem empty_discovery_errors_before_stitching_witness :
    mainRun (fun _ _ => some 0) (.error ()) none "01-Jan-2026 00:00"
        (StitchWorld.mk true (some 0) true) =
      (.ok (.error "found no files!"), []) :=
  (empty_discovery_errors_before_stitching (fun _ _ => some 0) (.error ())
    none "01-Jan-2026 00:00" (StitchWorld.mk true (some 0) true)
    (ascii "/bin/ffmpeg") rfl rfl).2

/-- C8: one discovered path that cannot be rendered as text aborts the
whole run with the path-encoding panic and an EMPTY trace — before the
manifest is written and before the external tool is invoked, never
silently skipping the path. -/
theorem undecodable_path_aborts_before_tool
    (bin out : Path) (files : List Path) (w : StitchWorld)
    (hbad : ∃ f ∈ files, toStr? f = none) :
    stitch_files bin out files w = (.panic .pathEncoding, []) := by
  have hbm := buildManifest_eq_error hbad
  unfold stitch_files
  rw [hbm]

/-- Witness for C8: a one-byte path `0xFF` does not decode. -/
theorem undecodable_path_aborts_before_tool_witness :
    stitch_files (ascii "ffmpeg") (ascii "o.wav") [[255]]
      (StitchWorld.mk true (some 0) true) = (.panic .pathEncoding, []) :=
  undecodable_path_aborts_before_tool (ascii "ffmpeg") (ascii "o.wav")
    [[255]] (StitchWorld.mk true (some 0) true) ⟨[255], by decide, by decide⟩

/-- C9: whenever the run reaches the invocation (manifest built and
written), the second effect runs the resolved binary with exactly the
arguments `-y -vn -f concat -safe 0 -i ./_stitcher_tmp_.txt -c copy`
followed by the output path. -/
theorem ffmpeg_invoked_with_concat_args
    (bin out : Path) (files : List Path) (w : StitchWorld)
    (hf : ∀ f ∈ files, (toStr? f).isSome) (hw : w.writeResult = true) :
    (stitch_files bin out files w).2[1]? =
      some (.run bin [ascii "-y", ascii "-vn", ascii "-f", ascii "concat",
        ascii "-safe", ascii "0", ascii "-i", ascii "./_stitcher_tmp_.txt",
        ascii "-c", ascii "copy", out]) := by
  have hbm := buildManifest_eq_of_decodable hf
  simp only [stitch_files, hbm, hw]
  rcases hst : w.statusResult with _ | code
  · simp [stitchArgs, inputs_file_path]
  · by_cases hc : code = 0
    · by_cases hrr : w.removeResult = false <;>
        simp [hc, hrr, stitchArgs, inputs_file_path]
    · simp [hc, stitchArgs, inputs_file_path]

/-- Witness for C9 at a concrete successful run. -/
theorem ffmpeg_invoked_with_concat_args_witness :
    (stitch_files (ascii "ffmpeg") (ascii "out.wav") [ascii "a.wav"]
        (StitchWorld.mk true (some 0) true)).2[1]? =
      some (.run (ascii "ffmpeg") [ascii "-y", ascii "-vn", ascii "-f",
        ascii "concat", ascii "-safe", ascii "0", ascii "-i",
        ascii "./_stitcher_tmp_.txt", ascii "-c", ascii "copy",
        ascii "out.wav"]) :=
  ffmpeg_invoked_with_concat_args (ascii "ffmpeg") (ascii "out.wav")
    [ascii "a.wav"] (StitchWorld.mk true (some 0) true) (by decide) rfl

/-- C10: whenever `stitch_files` completes normally, the path it returns
is the very output path it was given. -/
theorem stitch_returns_given_output_path
    (bin out : Path) (files : List Path) (w : StitchWorld) (p : Path)
    (tr : List Effect) (h : stitch_files bin out files w = (.ok p, tr)) :
    p = out := by
  unfold stitch_files at h
  repeat' split at h
  all_goals injection h with h1 h2
  all_goals first
    | exact Outcome.noConfusion h1
    | (injection h1 with h3; exact h3.symm)

/-- Witness for C10 at a concrete successful run. -/
theorem stitch_returns_given_output_path_witness :
    (ascii "out.wav" : Path) = ascii "out.wav" :=
  stitch_returns_given_output_path (ascii "ffmpeg") (ascii "out.wav")
    [ascii "a.wav"] (StitchWorld.mk true (some 0) true) (ascii "out.wav")
    [.write "./_stitcher_tmp_.txt" "file a.wav\n",
     .run (ascii "ffmpeg") (stitchArgs (ascii "out.wav")),
     .print "successfully concatenated the files",
     .remove "./_stitcher_tmp_.txt"] (by decide)

end Stitcher
